import Mathlib

/-!
Verification of the multi-diff engine (easybuild/tools/multidiff.py).

The Python module is shallowly embedded below. Python strings are modelled as
List Char; Python dicts that are only read back by key are modelled as
association lists; the two Python sets that are iterated for display
(the set of distinct diff-line texts and the set of contributing candidate
names) are modelled as insertion-ordered duplicate-free lists. CPython set
iteration order is really hash-based; insertion order is the deterministic
model most favourable to the specification, and the divergences proved below
do not depend on that choice.

The module-level logger call in parse_line is modelled as raising: inside the
EasyBuild framework the fancylogger logger class is replaced by EasyBuildLog,
whose error method raises an EasyBuildError, and the specification likewise
treats it as a fatal programming-error signal. Fallible code therefore
returns Except.
-/

namespace Multidiff

open scoped List

/-- SEP_WIDTH = 5 -/
def SEP_WIDTH : Nat := 5

/-- PURPLE = "\033[0;35m" (text color) -/
def PURPLE : List Char := "\x1b[0;35m".data

/-- GREEN_BACK = "\033[0;42m" (background color) -/
def GREEN_BACK : List Char := "\x1b[0;42m".data

/-- RED_BACK = "\033[0;41m" (background color) -/
def RED_BACK : List Char := "\x1b[0;41m".data

/-- END_COLOR = "\033[0m" (end character for colorized text) -/
def END_COLOR : List Char := "\x1b[0m".data

/-- HAT = the caret character -/
def HAT : Char := '^'

/-- MINUS = the removal marker -/
def MINUS : Char := '-'

/-- PLUS = the addition marker -/
def PLUS : Char := '+'

/-- SPACE = the blank character -/
def SPACE : Char := ' '

/-- QUESTION = the guide-line marker used by difflib -/
def QUESTION : Char := '?'

/-- END_LONG_LINE = the ellipsis marker -/
def END_LONG_LINE : List Char := "...".data

/-- The whitespace characters stripped by the Python str.rstrip method. -/
def isPySpace (c : Char) : Bool :=
  c = ' ' || c = '\t' || c = '\n' || c = '\x0b' || c = '\x0c' || c = '\r'

/-- Python s.rstrip(): drop trailing whitespace. -/
def rstrip (s : List Char) : List Char :=
  (s.reverse.dropWhile isPySpace).reverse

/-- Python list.insert(i, a): insert at position i, clamping i to the length. -/
def pyInsert {α : Type} (n : Nat) (a : α) : List α → List α
  | [] => [a]
  | x :: xs =>
    match n with
    | 0 => a :: x :: xs
    | m + 1 => x :: pyInsert m a xs

/-- Python text[:k] for an Int bound k (negative bounds count from the end). -/
def pySliceTo (text : List Char) (k : Int) : List Char :=
  if 0 ≤ k then text.take k.toNat
  else text.take (text.length - (-k).toNat)

/-- Python sep.join(parts). -/
def joinWith (sep : List Char) : List (List Char) → List Char
  | [] => []
  | [x] => x
  | x :: y :: xs => x ++ sep ++ joinWith sep (y :: xs)

/-- Python str(n) for a natural number. -/
def natStr (n : Nat) : List Char := (Nat.repr n).data

/-- Python "(%d/%d)" % (a, b). -/
def countsTag (a b : Nat) : List Char :=
  ['('] ++ natStr a ++ ['/'] ++ natStr b ++ [')']

/-- Python int(math.log10 n) for n >= 1, as the number of decimal digits
minus one.  The code calls math.log10 only behind a guard that first raises
ValueError on 0, which the embedding of get_line models as an error. -/
def intLog10 (n : Nat) : Nat := (Nat.toDigits 10 n).length - 1

/-- Association-list lookup (models a Python dict read d.get(k)). -/
def alGet {α : Type} (m : List (List Char × α)) (k : List Char) : Option α :=
  match m with
  | [] => none
  | (k2, v) :: t => if k2 = k then some v else alGet t k

/-- Association-list write (models a Python dict write d[k] = v). -/
def alSet {α : Type} (m : List (List Char × α)) (k : List Char) (v : α) :
    List (List Char × α) :=
  match m with
  | [] => [(k, v)]
  | (k2, v2) :: t => if k2 = k then (k2, v) :: t else (k2, v2) :: alSet t k v

/-- MultiDiff.color_line: wrap the line in the color escapes when color mode
is enabled, return it unchanged otherwise. -/
def color_line (colored : Bool) (line : List Char) (color : List Char) : List Char :=
  if colored then color ++ line ++ END_COLOR else line

/-- The per-character overwrite rule of MultiDiff.merge_squigly: a base
character that is HAT or SPACE and differs from the other mask character is
overwritten by it. -/
def charMerge (b o : Char) : Char :=
  if (b = HAT ∨ b = SPACE) ∧ b ≠ o then o else b

/-- The in-place loop of MultiDiff.merge_squigly: walk the other (shorter)
mask and rewrite the base mask position by position.  The middle case is
unreachable from merge_squigly, which always passes the longer list first. -/
def mergeInto : List Char → List Char → List Char
  | base, [] => base
  | [], _ :: _ => []
  | b :: bs, o :: os => charMerge b o :: mergeInto bs os

/-- MultiDiff.merge_squigly: the longer mask is the base (on equal lengths the
second argument is), and the other mask is folded into it. -/
def merge_squigly (squigly1 squigly2 : List Char) : List Char :=
  if squigly2.length < squigly1.length then mergeInto squigly1 squigly2
  else mergeInto squigly2 squigly1

/-- The color_map lookup of MultiDiff.colorize: color_map.get(c, '').
plusLine records whether the diff line starts with PLUS. -/
def colorMapGet (plusLine : Bool) (c : Char) : List Char :=
  if c = HAT then (if plusLine then GREEN_BACK else RED_BACK)
  else if c = MINUS then RED_BACK
  else if c = PLUS then GREEN_BACK
  else []

/-- One step of the squigly loop of MultiDiff.colorize, acting on the state
(chars, flag, compensator).  chars is the Python list holding single
characters and inserted escape strings. -/
def colorizeStep (plusLine : Bool) (st : List (List Char) × Char × Nat)
    (p : Nat × Char) : List (List Char) × Char × Nat :=
  let (chars, flag, comp) := st
  let (i, s) := p
  if s ≠ flag then
    let chars := pyInsert (i + comp) END_COLOR chars
    let comp := comp + 1
    if s = HAT ∨ s = MINUS ∨ s = PLUS then
      (pyInsert (i + comp) (colorMapGet plusLine s) chars, s, comp + 1)
    else (chars, s, comp)
  else st

/-- MultiDiff.colorize: add colors to the diff line based on the squigly
line.  When color mode is off the line is returned unchanged.  In the Python
code the maskless branch reads line[0]; that branch is only reached with
lines registered by parse_line, which are never empty, so the embedding reads
the head with a SPACE default (which maps to the empty escape). -/
def colorize (colored : Bool) (line squigly : List Char) : List Char :=
  if colored = false then line
  else
    let plusLine := line.head? = some PLUS
    let chars0 : List (List Char) := line.map (fun c => [c])
    if squigly ≠ [] then
      let st := squigly.enum.foldl (colorizeStep plusLine) (chars0, SPACE, 0)
      (pyInsert (squigly.length + st.2.2) END_COLOR st.1).flatten
    else
      ((colorMapGet plusLine (line.headD SPACE)) :: chars0 ++ [END_COLOR]).flatten

/-- One Change Record as stored by parse_line: the rstripped diff line, the
candidate file name, and the squigly (emphasis-mask) line; an absent or empty
mask is the empty list, matching Python falsiness. -/
structure Record where
  diffLine : List Char
  meta : List Char
  squigly : List Char
deriving DecidableEq

/-- The two lists kept for one base line number of diff_info, keyed by MINUS
and PLUS.  parse_line raises on any other key, so no other key can exist. -/
structure LineDiff where
  minus : List Record
  plus : List Record
deriving DecidableEq

/-- The Change Index self.diff_info: base line number to per-key record
lists; an absent entry is the empty LineDiff. -/
abbrev DiffInfo := Nat → LineDiff

/-- MultiDiff.parse_line: register a (diff_line, meta, squigly_line) tuple
for the given line number under the key read from the first character of the
line.  A key other than MINUS or PLUS signals a programming error (the
EasyBuild logger raises); an empty line raises IndexError on line[0].  Both
fatal paths are the error case. -/
def parse_line (d : DiffInfo) (line_no : Nat) (diff_line meta squigly : List Char) :
    Except Unit DiffInfo :=
  match diff_line.head? with
  | none => .error ()
  | some key =>
    if key = MINUS ∨ key = PLUS then
      .ok (fun n =>
        if n = line_no then
          if key = MINUS then
            { d n with minus := (d n).minus ++ [⟨rstrip diff_line, meta, squigly⟩] }
          else
            { d n with plus := (d n).plus ++ [⟨rstrip diff_line, meta, squigly⟩] }
        else d n)
    else .error ()

/-- The per-key accumulator of MultiDiff.get_line: lines is the Python set of
distinct diff-line texts (modelled in insertion order, see the header note),
changes maps a text to its Python set of candidate names (same modelling),
and squigly maps a text to its merged emphasis mask. -/
structure GroupAcc where
  lines : List (List Char)
  changes : List (List Char × List (List Char))
  squigly : List (List Char × List Char)
deriving DecidableEq

/-- One iteration of the record loop of MultiDiff.get_line: merge the squigly
line into the accumulated mask of the text (a first mask is merged with
itself), add the text to the line set and the candidate name to the per-text
name set. -/
def stepRecord (acc : GroupAcc) (r : Record) : GroupAcc :=
  let acc :=
    if r.squigly ≠ [] then
      let squigly2 := (alGet acc.squigly r.diffLine).getD r.squigly
      { acc with squigly := alSet acc.squigly r.diffLine (merge_squigly r.squigly squigly2) }
    else acc
  let lines := if r.diffLine ∈ acc.lines then acc.lines else acc.lines ++ [r.diffLine]
  let metas := (alGet acc.changes r.diffLine).getD []
  let metas := if r.meta ∈ metas then metas else metas ++ [r.meta]
  { acc with lines := lines, changes := alSet acc.changes r.diffLine metas }

/-- The accumulator after the whole record loop of MultiDiff.get_line. -/
def groupAccOf (records : List Record) : GroupAcc :=
  records.foldl stepRecord ⟨[], [], []⟩

/-- The distinct diff-line texts in discovery order (the lines set of
MultiDiff.get_line under the insertion-order set model). -/
def discoveryOrder (records : List Record) : List (List Char) :=
  (groupAccOf records).lines

/-- The sort key of MultiDiff.get_line: len(changes_dict[line]), the number
of distinct candidates contributing the text. -/
def candCount (records : List Record) (t : List Char) : Nat :=
  ((alGet (groupAccOf records).changes t).getD []).length

/-- Stable insertion of Python sorted: the element goes right before the
first strictly greater key, hence after every element of equal key. -/
def insertAsc (key : List Char → Nat) (x : List Char) :
    List (List Char) → List (List Char)
  | [] => [x]
  | y :: ys => if key x < key y then x :: y :: ys else y :: insertAsc key x ys

/-- Python sorted(l, key): stable ascending sort, modelled as left-to-right
stable insertion. -/
def pySorted (key : List Char → Nat) (l : List (List Char)) : List (List Char) :=
  l.foldl (fun acc x => insertAsc key x acc) []

/-- The ranked texts of MultiDiff.get_line: sorted ascending by candidate
count, then reversed (lines[::-1]), so the most shared text comes first. -/
def rankedTexts (records : List Record) : List (List Char) :=
  (pySorted (fun l => candCount records l) (discoveryOrder records)).reverse

/-- The texts actually displayed: at most max_groups = 2 of the ranked
texts. -/
def displayedTexts (records : List Record) : List (List Char) :=
  (rankedTexts records).take 2

/-- The joined information line of MultiDiff.get_line for one chosen text:
line number, colorized text, the (contributing/total) tag, and the candidate
names exactly when not all candidates contribute. -/
def infoLine (colored : Bool) (numFiles : Nat) (acc : GroupAcc) (line_no : Nat)
    (diff_line : List Char) : List Char :=
  let squigly_line := (alGet acc.squigly diff_line).getD []
  let files := (alGet acc.changes diff_line).getD []
  let parts := [natStr line_no, colorize colored diff_line squigly_line,
                countsTag files.length numFiles]
  let parts := if files.length ≠ numFiles then parts ++ [joinWith [',', SPACE] files]
               else parts
  joinWith [SPACE] parts

/-- The display lines of MultiDiff.get_line for one chosen diff-line text:
the joined information line, plus the raw mask line (left-padded with
2 + int(math.log10(line_no)) blanks) when color is off and a mask exists.
math.log10(0) raises ValueError, the error case. -/
def renderOne (colored : Bool) (numFiles : Nat) (acc : GroupAcc) (line_no : Nat)
    (diff_line : List Char) : Except Unit (List (List Char)) :=
  let squigly_line := (alGet acc.squigly diff_line).getD []
  let l1 := infoLine colored numFiles acc line_no diff_line
  if colored = false ∧ squigly_line ≠ [] then
    if line_no = 0 then .error ()
    else .ok [l1, List.replicate (2 + intLog10 line_no) SPACE ++ squigly_line]
  else .ok [l1]

/-- The display loop of MultiDiff.get_line over the chosen texts, in order. -/
def renderAll (colored : Bool) (numFiles : Nat) (acc : GroupAcc) (line_no : Nat) :
    List (List Char) → Except Unit (List (List Char))
  | [] => .ok []
  | dl :: rest =>
    match renderOne colored numFiles acc line_no dl with
    | .error e => .error e
    | .ok ls =>
      match renderAll colored numFiles acc line_no rest with
      | .error e => .error e
      | .ok out => .ok (ls ++ out)

/-- The whole per-key body of MultiDiff.get_line. -/
def processKey (colored : Bool) (numFiles : Nat) (line_no : Nat)
    (records : List Record) : Except Unit (List (List Char)) :=
  renderAll colored numFiles (groupAccOf records) line_no (displayedTexts records)

/-- Truthiness of self.diff_info.get(line_no, {}): some record is stored at
the line number. -/
def hasRecordsB (d : DiffInfo) (i : Nat) : Bool :=
  !((d i).minus.isEmpty && (d i).plus.isEmpty)

/-- The three separator lines appended by MultiDiff.get_line after the last
line number of a block of changes. -/
def sepLines : List (List Char) :=
  [[SPACE], List.replicate SEP_WIDTH MINUS, [SPACE]]

/-- MultiDiff.get_line: the display lines for one base line number, removals
before additions, with the separator appended when this line number holds
records and the next one does not. -/
def get_line (d : DiffInfo) (numFiles : Nat) (colored : Bool) (line_no : Nat) :
    Except Unit (List (List Char)) :=
  match processKey colored numFiles line_no (d line_no).minus with
  | .error e => .error e
  | .ok outMinus =>
    match processKey colored numFiles line_no (d line_no).plus with
    | .error e => .error e
    | .ok outPlus =>
      let out := outMinus ++ outPlus
      .ok (if hasRecordsB d line_no && !hasRecordsB d (line_no + 1)
           then out ++ sepLines else out)

/-- The limit closure of MultiDiff.__str__: cut a long line down, terminate
color mode and add END_LONG_LINE if trimmed. -/
def limit (colored : Bool) (text : List Char) (len : Nat) : List Char :=
  if len < text.length then
    let maxlen : Int := (len : Int) - END_LONG_LINE.length
    let res := pySliceTo text maxlen
    let res := if colored then res ++ END_COLOR else res
    res ++ END_LONG_LINE
  else text

/-- The loop state of the alignment pass of the multidiff function:
the running compensator, the (line number, diff line) pairs put into
local_diff (the line numbers later passed to parse_line), the last added
line, and squigly_dict keyed by the annotated line. -/
structure AlignState where
  compensator : Int
  localDiff : List (Int × List Char)
  lastAdded : Option (List Char)
  squigly : List (Option (List Char) × List Char)
deriving DecidableEq

/-- Write to squigly_dict (keyed by the last added line, possibly None). -/
def alSetO (m : List (Option (List Char) × List Char)) (k : Option (List Char))
    (v : List Char) : List (Option (List Char) × List Char) :=
  match m with
  | [] => [(k, v)]
  | (k2, v2) :: t => if k2 = k then (k2, v) :: t else (k2, v2) :: alSetO t k v

/-- One iteration of the alignment loop of the multidiff function over the
enumerated difflib output: guide lines attach to the last added line and
decrement the compensator; added and removed lines are recorded at position
i + compensator; removed lines also decrement the compensator. -/
def alignStep (st : AlignState) (p : Nat × List Char) : AlignState :=
  let (i, line) := p
  if line.head? = some QUESTION then
    { st with squigly := alSetO st.squigly st.lastAdded line,
              compensator := st.compensator - 1 }
  else if line.head? = some PLUS then
    { st with localDiff := st.localDiff ++ [((i : Int) + st.compensator, line)],
              lastAdded := some line }
  else if line.head? = some MINUS then
    { st with localDiff := st.localDiff ++ [((i : Int) + st.compensator, line)],
              lastAdded := some line,
              compensator := st.compensator - 1 }
  else st

/-- The whole alignment pass of the multidiff function for one candidate:
fold over the enumerated difflib comparator output with the compensator
initialized to 1. -/
def alignCandidate (diff : List (List Char)) : AlignState :=
  diff.enum.foldl alignStep ⟨1, [], none, []⟩

/-- Count the comparator lines that correspond to a base line: every line
except guide lines (QUESTION) and removed lines (MINUS).  In a well-formed
difflib comparison of a candidate against the base, these are exactly the
common and added lines, one per base line. -/
def countND (diff : List (List Char)) : Nat :=
  diff.countP (fun l => !(l.head? = some QUESTION || l.head? = some MINUS))

/-- The merge rule with the tie broken as claim C5 words it: the base is the
longest mask, and on equal lengths the mask that is later in insertion order,
which is the first argument of merge_squigly as called from get_line (the
mask of the current record; the second argument is the accumulated one). -/
def claimMergeC5 (later earlier : List Char) : List Char :=
  if earlier.length ≤ later.length then mergeInto later earlier
  else mergeInto earlier later

/-- Claim C5 as stated: merge_squigly always behaves like the later-wins tie
rule. -/
def claimC5Statement : Prop :=
  ∀ later earlier : List Char, merge_squigly later earlier = claimMergeC5 later earlier

/-- Claim C4 as stated: any over-long display line is shortened to exactly
the terminal width, including when color output is enabled. -/
def claimC4Statement : Prop :=
  ∀ (colored : Bool) (text : List Char) (w : Nat),
    w < text.length → (limit colored text w).length = w

/-- Claim C1 as stated: for any difflib-style stream for a candidate against
a base with baseLen lines (countND counts the stream lines that correspond
to base lines), every recorded line number lies in [0, baseLen). -/
def claimC1Statement : Prop :=
  ∀ (diff : List (List Char)) (baseLen : Nat), countND diff = baseLen →
    ∀ p ∈ (alignCandidate diff).localDiff, 0 ≤ p.1 ∧ p.1 < (baseLen : Int)

/-- Claim C2 as stated: rendering a line never fails, for every line number,
Change Index and colored flag. -/
def claimC2Statement : Prop :=
  ∀ (d : DiffInfo) (numFiles : Nat) (colored : Bool) (line_no : Nat),
    ∃ out, get_line d numFiles colored line_no = .ok out

/-- Claim C6 as stated: among displayed texts with equal candidate counts,
the display order follows the discovery order of the texts. -/
def claimC6Statement : Prop :=
  ∀ (records : List Record) (t1 t2 : List Char),
    t1 ≠ t2 →
    candCount records t1 = candCount records t2 →
    t1 ∈ displayedTexts records → t2 ∈ displayedTexts records →
    [t1, t2] <+ discoveryOrder records →
    [t1, t2] <+ displayedTexts records

/-- Claim C9 as stated, at the get_line level walked by the report loop over
line numbers below baseLen: the separator follows the last line of every
maximal run of record-bearing line numbers, never separates two consecutive
record-bearing line numbers, and never appears when no line number bears
records. -/
def claimC9Statement : Prop :=
  ∀ (d : DiffInfo) (baseLen numFiles : Nat) (colored : Bool),
    (∀ i out, i < baseLen → hasRecordsB d i = true →
      (i + 1 = baseLen ∨ hasRecordsB d (i + 1) = false) →
      get_line d numFiles colored i = .ok out → sepLines <:+ out)
    ∧ (∀ i out, i < baseLen → hasRecordsB d i = true → i + 1 < baseLen →
        hasRecordsB d (i + 1) = true →
        get_line d numFiles colored i = .ok out → ¬ sepLines <:+ out)
    ∧ ((∀ i, i < baseLen → hasRecordsB d i = false) →
        ∀ i out, i < baseLen → get_line d numFiles colored i = .ok out → out = [])

/-- A Change Index holding one masked removal record at base line 0
(reachable by calling parse_line directly, and the configuration claim C2
asserts get_line succeeds on). -/
def dMask0 : DiffInfo :=
  fun n => if n = 0 then ⟨[⟨['-', 'x'], ['f'], [HAT]⟩], []⟩ else ⟨[], []⟩

/-- A Change Index with records at base line numbers 1 and 2, as the
alignment pass produces for the 2-line base BASE = [a, b] and the candidate
[x, y] (records land at 1 and 2 = len(base)). -/
def dRun2 : DiffInfo :=
  fun n =>
    if n = 1 then ⟨[⟨['-', 'x'], ['f'], []⟩], []⟩
    else if n = 2 then ⟨[], [⟨['+', 'b'], ['f'], []⟩]⟩
    else ⟨[], []⟩

/-- A Change Index with one unmasked removal record at base line 3 only. -/
def dSep3 : DiffInfo :=
  fun n => if n = 3 then ⟨[⟨['-', 'x'], ['f'], []⟩], []⟩ else ⟨[], []⟩

theorem charMerge_weak (b o : Char) :
    charMerge b o = if b = HAT ∨ b = SPACE then o else b := by
  unfold charMerge
  by_cases h : b = HAT ∨ b = SPACE
  · by_cases h2 : b = o
    · simp [h, h2]
    · simp [h, h2]
  · simp [h]

theorem charMerge_assoc (x y z : Char) :
    charMerge x (charMerge y z) = charMerge (charMerge x y) z := by
  rw [charMerge_weak, charMerge_weak, charMerge_weak, charMerge_weak]
  by_cases hx : x = HAT ∨ x = SPACE
  · simp [hx]
  · simp [hx]

theorem zipWith_charMerge_assoc :
    ∀ c b a : List Char,
      List.zipWith charMerge c (List.zipWith charMerge b a)
        = List.zipWith charMerge (List.zipWith charMerge c b) a := by
  intro c
  induction c with
  | nil => intro b a; simp
  | cons ch ct ih =>
    intro b a
    cases b with
    | nil => simp
    | cons bh bt =>
      cases a with
      | nil => simp
      | cons ah as2 => simp [List.zipWith, charMerge_assoc, ih]

theorem mergeInto_eq_zipWith :
    ∀ base other : List Char, other.length = base.length →
      mergeInto base other = List.zipWith charMerge base other := by
  intro base
  induction base with
  | nil =>
    intro other h
    have : other = [] := List.eq_nil_of_length_eq_zero (by simpa using h)
    simp [this, mergeInto]
  | cons b bs ih =>
    intro other h
    cases other with
    | nil => simp at h
    | cons o os => simp [mergeInto, List.zipWith, ih os (by simpa using h)]

theorem length_mergeInto :
    ∀ base other : List Char, (mergeInto base other).length = base.length := by
  intro base
  induction base with
  | nil => intro other; cases other <;> rfl
  | cons b bs ih =>
    intro other
    cases other with
    | nil => rfl
    | cons o os => simp [mergeInto, ih]

theorem mergeInto_getD :
    ∀ (base other : List Char), other.length ≤ base.length → ∀ i : Nat,
      (mergeInto base other).getD i SPACE
        = if i < other.length then charMerge (base.getD i SPACE) (other.getD i SPACE)
          else base.getD i SPACE := by
  intro base
  induction base with
  | nil =>
    intro other h i
    have : other = [] := List.eq_nil_of_length_eq_zero (by simpa using h)
    simp [this, mergeInto]
  | cons b bs ih =>
    intro other h i
    cases other with
    | nil => simp [mergeInto]
    | cons o os =>
      cases i with
      | zero => simp [mergeInto]
      | succ j => simpa [mergeInto] using ih os (by simpa using h) j

theorem merge_squigly_eq_zipWith (a b : List Char) (h : a.length = b.length) :
    merge_squigly a b = List.zipWith charMerge b a := by
  unfold merge_squigly
  rw [if_neg (by omega)]
  exact mergeInto_eq_zipWith b a h

/-- Claim C8: the emphasis-mask merge is associative for masks of equal
lengths: merging M1 then M2 then M3 yields the same mask regardless of how
the merges are paired. -/
theorem c8_merge_assoc (m1 m2 m3 : List Char)
    (h12 : m1.length = m2.length) (h23 : m2.length = m3.length) :
    merge_squigly (merge_squigly m1 m2) m3
      = merge_squigly m1 (merge_squigly m2 m3) := by
  have e12 : merge_squigly m1 m2 = List.zipWith charMerge m2 m1 :=
    merge_squigly_eq_zipWith m1 m2 h12
  have l12 : (merge_squigly m1 m2).length = m3.length := by
    rw [e12, List.length_zipWith]; omega
  have e23 : merge_squigly m2 m3 = List.zipWith charMerge m3 m2 :=
    merge_squigly_eq_zipWith m2 m3 h23
  have l23 : m1.length = (merge_squigly m2 m3).length := by
    rw [e23, List.length_zipWith]; omega
  rw [merge_squigly_eq_zipWith _ m3 l12, merge_squigly_eq_zipWith m1 _ l23,
      e12, e23, zipWith_charMerge_assoc]

/-- Witness for c8_merge_assoc at the concrete masks HAT, SPACE, PLUS. -/
theorem c8_merge_assoc_witness :
    ([HAT] : List Char).length = [SPACE].length
    ∧ ([SPACE] : List Char).length = [PLUS].length
    ∧ merge_squigly (merge_squigly [HAT] [SPACE]) [PLUS]
        = merge_squigly [HAT] (merge_squigly [SPACE] [PLUS]) :=
  ⟨rfl, rfl, c8_merge_assoc [HAT] [SPACE] [PLUS] rfl rfl⟩

/-- Claim C5 counterexample: merging the masks HAT (earlier) and SPACE
(later, equal length) keeps the earlier mask as base, producing SPACE,
while the later-wins rule of the claim produces HAT. -/
theorem c5_counterexample : ¬ claimC5Statement := by
  intro h
  exact absurd (h [SPACE] [HAT]) (by decide)

/-- Claim C5 amended: the base of the merge is the longest mask, with ties
resolved to the accumulated (earlier, second-argument) mask; each position of
the base is overwritten by the other mask exactly when the base character is
HAT or SPACE and differs. -/
theorem c5_amended (s a : List Char) :
    (merge_squigly s a).length = max s.length a.length
    ∧ ∀ i : Nat,
        (merge_squigly s a).getD i SPACE
          = (if i < (if a.length < s.length then a else s).length
             then charMerge ((if a.length < s.length then s else a).getD i SPACE)
                            ((if a.length < s.length then a else s).getD i SPACE)
             else (if a.length < s.length then s else a).getD i SPACE) := by
  by_cases h : a.length < s.length
  · constructor
    · unfold merge_squigly
      rw [if_pos h, length_mergeInto]; omega
    · intro i
      have e : merge_squigly s a = mergeInto s a := by
        unfold merge_squigly; rw [if_pos h]
      rw [e]
      simp only [if_pos h]
      exact mergeInto_getD s a (by omega) i
  · constructor
    · unfold merge_squigly
      rw [if_neg h, length_mergeInto]; omega
    · intro i
      have e : merge_squigly s a = mergeInto a s := by
        unfold merge_squigly; rw [if_neg h]
      rw [e]
      simp only [if_neg h]
      exact mergeInto_getD a s (by omega) i

/-- Claim C10: when color output is disabled, colorize and color_line are
the identity on the line, for every emphasis mask and color. -/
theorem c10_uncolored_identity (line squigly color : List Char) :
    colorize false line squigly = line ∧ color_line false line color = line :=
  ⟨rfl, rfl⟩

/-- Claim C7: parse_line signals a programming error exactly when the first
character of the line is neither MINUS nor PLUS (an empty line has no such
character and also fails); on MINUS or PLUS it succeeds, appends exactly one
record to the list for that line number and kind, and leaves every other
entry of the Change Index unchanged. -/
theorem c7_record_contract (d : DiffInfo) (n : Nat) (dl m sq : List Char) :
    ((parse_line d n dl m sq = .error ())
        ↔ ¬(dl.head? = some MINUS ∨ dl.head? = some PLUS))
    ∧ ∀ d', parse_line d n dl m sq = .ok d' →
        (∀ k, k ≠ n → d' k = d k)
        ∧ (dl.head? = some MINUS →
            (d' n).minus = (d n).minus ++ [⟨rstrip dl, m, sq⟩]
            ∧ (d' n).plus = (d n).plus)
        ∧ (dl.head? = some PLUS →
            (d' n).plus = (d n).plus ++ [⟨rstrip dl, m, sq⟩]
            ∧ (d' n).minus = (d n).minus) := by
  cases dl with
  | nil =>
    constructor
    · simp [parse_line]
    · intro d' h
      simp [parse_line] at h
  | cons key rest =>
    by_cases hk : key = MINUS ∨ key = PLUS
    · constructor
      · simp [parse_line, hk]
      · intro d' h
        simp only [parse_line, List.head?_cons, if_pos hk, Except.ok.injEq] at h
        subst h
        refine ⟨fun k hkn => by simp [hkn], ?_, ?_⟩
        · intro hm
          have hkm : key = MINUS := by simpa using hm
          subst hkm
          simp
        · intro hp
          have hkp : key = PLUS := by simpa using hp
          subst hkp
          simp [show ¬(PLUS = MINUS) by decide]
    · constructor
      · simp [parse_line, hk]
      · intro d' h
        simp [parse_line, hk] at h

/-- Witness for c7_record_contract: recording a MINUS line at line 1 of an
empty index stores exactly the rstripped record there and leaves line 0
untouched. -/
theorem c7_record_contract_witness :
    parse_line (fun _ => ⟨[], []⟩) 1 ['-', 'a', SPACE] ['f'] []
      = .ok ((parse_line (fun _ => ⟨[], []⟩) 1 ['-', 'a', SPACE] ['f'] []).toOption.getD
          (fun _ => ⟨[], []⟩))
    ∧ (((parse_line (fun _ => ⟨[], []⟩) 1 ['-', 'a', SPACE] ['f'] []).toOption.getD
          (fun _ => ⟨[], []⟩)) 1).minus = [⟨['-', 'a'], ['f'], []⟩]
    ∧ (((parse_line (fun _ => ⟨[], []⟩) 1 ['-', 'a', SPACE] ['f'] []).toOption.getD
          (fun _ => ⟨[], []⟩)) 1).plus = []
    ∧ ((parse_line (fun _ => ⟨[], []⟩) 1 ['-', 'a', SPACE] ['f'] []).toOption.getD
          (fun _ => ⟨[], []⟩)) 0 = ⟨[], []⟩ := by
  have h : parse_line (fun _ => ⟨[], []⟩) 1 ['-', 'a', SPACE] ['f'] []
      = .ok ((parse_line (fun _ => ⟨[], []⟩) 1 ['-', 'a', SPACE] ['f'] []).toOption.getD
          (fun _ => ⟨[], []⟩)) := rfl
  have H := (c7_record_contract (fun _ => ⟨[], []⟩) 1 ['-', 'a', SPACE] ['f'] []).2 _ h
  refine ⟨h, ?_, ?_, H.1 0 (by decide)⟩
  · rw [(H.2.1 (by decide)).1]
    decide
  · rw [(H.2.1 (by decide)).2]

/-- Claim C4 counterexample: with color enabled, a 10-character line limited
to width 5 is 9 characters long (END_COLOR is inserted), not 5. -/
theorem c4_counterexample : ¬ claimC4Statement := by
  intro h
  exact absurd (h true (List.replicate 10 'a') 5 (by decide)) (by decide)

/-- Claim C4 amended: for widths of at least the ellipsis length, a too-long
line is cut to exactly the width when color is off; when color is on the
result is width + len(END_COLOR) characters, the reset sitting immediately
before the ellipsis. -/
theorem c4_amended (colored : Bool) (text : List Char) (w : Nat)
    (hw : END_LONG_LINE.length ≤ w) (hlen : w < text.length) :
    (colored = false → (limit colored text w).length = w)
    ∧ (colored = true → (limit colored text w).length = w + END_COLOR.length
        ∧ limit colored text w
          = text.take (w - END_LONG_LINE.length) ++ END_COLOR ++ END_LONG_LINE) := by
  have hEL : END_LONG_LINE.length = 3 := rfl
  have hEC : END_COLOR.length = 4 := rfl
  rw [hEL] at hw
  have hslice : pySliceTo text ((w : Int) - END_LONG_LINE.length) = text.take (w - 3) := by
    unfold pySliceTo
    rw [if_pos (by rw [hEL]; omega)]
    congr 1
    rw [hEL]
    omega
  have hslice3 : pySliceTo text ((w : Int) - 3) = text.take (w - 3) := by
    unfold pySliceTo
    rw [if_pos (by omega)]
    congr 1
    omega
  have htl : (text.take (w - 3)).length = w - 3 := by
    rw [List.length_take]; omega
  constructor
  · intro hc
    subst hc
    unfold limit
    rw [if_pos hlen]
    simp only [Bool.false_eq_true, if_false, hslice]
    rw [List.length_append, htl, hEL]
    omega
  · intro hc
    subst hc
    constructor
    · unfold limit
      rw [if_pos hlen]
      simp only [if_true, hslice]
      rw [List.length_append, List.length_append, htl, hEL, hEC]
      omega
    · unfold limit
      rw [if_pos hlen]
      simp only [if_true, hEL]
      simp [List.append_assoc, Nat.cast_ofNat, hslice3]

/-- Witness for c4_amended at a concrete 10-character line and width 5. -/
theorem c4_amended_witness :
    (limit false (List.replicate 10 'a') 5).length = 5
    ∧ (limit true (List.replicate 10 'a') 5).length = 5 + END_COLOR.length :=
  ⟨(c4_amended false (List.replicate 10 'a') 5 (by decide) (by decide)).1 rfl,
   ((c4_amended true (List.replicate 10 'a') 5 (by decide) (by decide)).2 rfl).1⟩

theorem mem_insertAsc (key : List Char → Nat) (x z : List Char) :
    ∀ l : List (List Char), z ∈ insertAsc key x l ↔ z = x ∨ z ∈ l := by
  intro l
  induction l with
  | nil => simp [insertAsc]
  | cons y ys ih =>
    by_cases h : key x < key y
    · simp [insertAsc, h]
    · simp [insertAsc, h, ih]
      tauto

theorem insertAsc_perm (key : List Char → Nat) (x : List Char) :
    ∀ l : List (List Char), (insertAsc key x l).Perm (x :: l) := by
  intro l
  induction l with
  | nil => simp [insertAsc]
  | cons y ys ih =>
    by_cases h : key x < key y
    · simp [insertAsc, h]
    · simp only [insertAsc, if_neg h]
      exact (ih.cons y).trans (List.Perm.swap x y ys)

theorem pySorted_append (key : List Char → Nat) (l : List (List Char)) (x : List Char) :
    pySorted key (l ++ [x]) = insertAsc key x (pySorted key l) := by
  unfold pySorted
  rw [List.foldl_append]
  rfl

theorem pySorted_perm (key : List Char → Nat) :
    ∀ l : List (List Char), (pySorted key l).Perm l := by
  intro l
  induction l using List.reverseRecOn with
  | nil => simp [pySorted]
  | append_singleton l x ih =>
    rw [pySorted_append]
    exact ((insertAsc_perm key x _).trans (ih.cons x)).trans
      (List.perm_append_singleton x l).symm

theorem insertAsc_pairwise (key : List Char → Nat) (x : List Char) :
    ∀ l : List (List Char), l.Pairwise (fun a b => key a ≤ key b) →
      (insertAsc key x l).Pairwise (fun a b => key a ≤ key b) := by
  intro l
  induction l with
  | nil => intro _; simp [insertAsc]
  | cons y ys ih =>
    intro hp
    rw [List.pairwise_cons] at hp
    by_cases h : key x < key y
    · rw [insertAsc, if_pos h, List.pairwise_cons]
      refine ⟨?_, List.pairwise_cons.mpr hp⟩
      intro b hb
      rcases List.mem_cons.mp hb with hb | hb
      · subst hb; omega
      · have := hp.1 b hb; omega
    · rw [insertAsc, if_neg h, List.pairwise_cons]
      refine ⟨?_, ih hp.2⟩
      intro b hb
      rcases (mem_insertAsc key x b ys).mp hb with hb | hb
      · subst hb; omega
      · exact hp.1 b hb

theorem pySorted_pairwise (key : List Char → Nat) :
    ∀ l : List (List Char), (pySorted key l).Pairwise (fun a b => key a ≤ key b) := by
  intro l
  induction l using List.reverseRecOn with
  | nil => simp [pySorted]
  | append_singleton l x ih =>
    rw [pySorted_append]
    exact insertAsc_pairwise key x _ ih

theorem insertAsc_sublist_self (key : List Char → Nat) (x : List Char) :
    ∀ l : List (List Char), l <+ insertAsc key x l := by
  intro l
  induction l with
  | nil => exact List.nil_sublist _
  | cons y ys ih =>
    by_cases h : key x < key y
    · rw [insertAsc, if_pos h]
      exact (List.Sublist.refl _).cons x
    · rw [insertAsc, if_neg h]
      exact ih.cons₂ y

theorem insertAsc_decomp (key : List Char → Nat) (x : List Char) :
    ∀ l : List (List Char), l.Pairwise (fun a b => key a ≤ key b) →
      ∃ p s, l = p ++ s ∧ insertAsc key x l = p ++ x :: s
        ∧ ∀ y ∈ s, key x < key y := by
  intro l
  induction l with
  | nil => exact fun _ => ⟨[], [], rfl, rfl, by simp⟩
  | cons y ys ih =>
    intro hp
    rw [List.pairwise_cons] at hp
    by_cases h : key x < key y
    · refine ⟨[], y :: ys, rfl, by rw [insertAsc, if_pos h]; rfl, ?_⟩
      intro z hz
      rcases List.mem_cons.mp hz with hz | hz
      · subst hz; exact h
      · have := hp.1 z hz; omega
    · obtain ⟨p, s, hps, hins, hmem⟩ := ih hp.2
      exact ⟨y :: p, s, by simp [hps], by rw [insertAsc, if_neg h, hins]; rfl, hmem⟩

theorem sublist_insertAsc_of_mem (key : List Char → Nat) (x t : List Char)
    (l : List (List Char)) (hp : l.Pairwise (fun a b => key a ≤ key b))
    (ht : t ∈ l) (hk : key t = key x) :
    [t, x] <+ insertAsc key x l := by
  obtain ⟨p, s, hps, hins, hmem⟩ := insertAsc_decomp key x l hp
  have htp : t ∈ p := by
    rw [hps] at ht
    rcases List.mem_append.mp ht with h | h
    · exact h
    · exact absurd (hmem t h) (by omega)
  rw [hins]
  have h1 : [t] <+ p := List.singleton_sublist.mpr htp
  have h2 : [x] <+ x :: s := (List.nil_sublist s).cons₂ x
  simpa using h1.append h2

theorem pySorted_stable (key : List Char → Nat) (t1 t2 : List Char)
    (hk : key t1 = key t2) :
    ∀ l : List (List Char), [t1, t2] <+ l → [t1, t2] <+ pySorted key l := by
  intro l
  induction l using List.reverseRecOn with
  | nil => intro h; simp at h
  | append_singleton l x ih =>
    intro h
    rw [pySorted_append]
    rcases List.sublist_append_iff.mp h with ⟨u, v, huv, hu, hv⟩
    rcases List.sublist_singleton.mp hv with rfl | rfl
    · rw [List.append_nil] at huv
      subst huv
      exact (ih hu).trans (insertAsc_sublist_self key x _)
    · have hux : u = [t1] ∧ x = t2 := by
        cases u with
        | nil => simp at huv
        | cons a us =>
          cases us with
          | nil =>
            simp only [List.cons_append, List.nil_append, List.cons.injEq] at huv
            exact ⟨by rw [huv.1], huv.2.1.symm⟩
          | cons b vs => simp at huv
      obtain ⟨rfl, rfl⟩ := hux
      have ht1 : t1 ∈ pySorted key l := by
        have : t1 ∈ l := List.singleton_sublist.mp hu
        exact ((pySorted_perm key l).mem_iff).mpr this
      exact sublist_insertAsc_of_mem key x t1 _ (pySorted_pairwise key l) ht1 hk

/-- Claim C3: per base line number and kind, more than 2 distinct texts
render exactly 2 groups, at most 2 distinct texts render all of them, and
the rendered order is descending in the number of distinct contributing
candidates. -/
theorem c3_group_cap (records : List Record) :
    (2 < (discoveryOrder records).length → (displayedTexts records).length = 2)
    ∧ ((discoveryOrder records).length ≤ 2 →
        (displayedTexts records).Perm (discoveryOrder records))
    ∧ (displayedTexts records).Pairwise
        (fun a b => candCount records b ≤ candCount records a) := by
  have hperm := pySorted_perm (fun l => candCount records l) (discoveryOrder records)
  have hlen := hperm.length_eq
  refine ⟨?_, ?_, ?_⟩
  · intro h
    simp only [displayedTexts, rankedTexts, List.length_take, List.length_reverse, hlen]
    omega
  · intro h
    have htake : (rankedTexts records).take 2 = rankedTexts records :=
      List.take_of_length_le (by simp only [rankedTexts, List.length_reverse, hlen]; omega)
    rw [displayedTexts, htake, rankedTexts]
    exact (List.reverse_perm _).trans hperm
  · have hsorted := pySorted_pairwise (fun l => candCount records l) (discoveryOrder records)
    have hrev : (rankedTexts records).Pairwise
        (fun a b => candCount records b ≤ candCount records a) := by
      rw [rankedTexts]
      exact List.pairwise_reverse.mpr hsorted
    exact hrev.sublist (List.take_sublist 2 _)

/-- Witness for c3_group_cap: three distinct texts display exactly 2 groups;
two distinct texts all display. -/
theorem c3_group_cap_witness :
    (displayedTexts [⟨['-', 'a'], ['f', '1'], []⟩, ⟨['-', 'b'], ['f', '2'], []⟩,
        ⟨['-', 'c'], ['f', '3'], []⟩]).length = 2
    ∧ (displayedTexts [⟨['-', 'a'], ['f', '1'], []⟩, ⟨['-', 'b'], ['f', '2'], []⟩]).Perm
        (discoveryOrder [⟨['-', 'a'], ['f', '1'], []⟩, ⟨['-', 'b'], ['f', '2'], []⟩]) :=
  ⟨(c3_group_cap [⟨['-', 'a'], ['f', '1'], []⟩, ⟨['-', 'b'], ['f', '2'], []⟩,
      ⟨['-', 'c'], ['f', '3'], []⟩]).1 (by decide),
   (c3_group_cap [⟨['-', 'a'], ['f', '1'], []⟩, ⟨['-', 'b'], ['f', '2'], []⟩]).2.1
      (by decide)⟩

/-- Claim C6 counterexample: two equally shared texts discovered in the
order A, B are displayed in the order B, A, because the ascending stable
sort is reversed before display. -/
theorem c6_counterexample : ¬ claimC6Statement := by
  intro h
  have := h [⟨['-', 'a'], ['f', '1'], []⟩, ⟨['-', 'b'], ['f', '2'], []⟩]
      ['-', 'a'] ['-', 'b'] (by decide) (by decide) (by decide) (by decide) (by decide)
  exact absurd this (by decide)

/-- Claim C6 amended: among texts with equal distinct-candidate counts the
ranked order, whose first 2 entries are displayed, is the reverse of the
discovery order (under the insertion-order model of Python set iteration);
the outcome is still deterministic for fixed records. -/
theorem c6_amended (records : List Record) (t1 t2 : List Char)
    (hk : candCount records t1 = candCount records t2)
    (hdisc : [t1, t2] <+ discoveryOrder records) :
    [t2, t1] <+ rankedTexts records
    ∧ displayedTexts records = (rankedTexts records).take 2 := by
  refine ⟨?_, rfl⟩
  have h := pySorted_stable (fun l => candCount records l) t1 t2 hk _ hdisc
  have hrev := h.reverse
  simpa [rankedTexts] using hrev

/-- Witness for c6_amended at two concrete equally-shared records. -/
theorem c6_amended_witness :
    [['-', 'b'], ['-', 'a']] <+ rankedTexts
      [⟨['-', 'a'], ['f', '1'], []⟩, ⟨['-', 'b'], ['f', '2'], []⟩] :=
  (c6_amended [⟨['-', 'a'], ['f', '1'], []⟩, ⟨['-', 'b'], ['f', '2'], []⟩]
    ['-', 'a'] ['-', 'b'] (by decide) (by decide)).1

theorem alignStep_fold_bound :
    ∀ (rest : List (List Char)) (j : Nat) (st : AlignState) (m total : Nat),
      st.compensator + (j : Int) = 1 + (m : Int) →
      m + countND rest ≤ total →
      (∀ p ∈ st.localDiff, 0 ≤ p.1 ∧ p.1 < (total : Int) + 2) →
      ∀ p ∈ (List.foldl alignStep st (List.enumFrom j rest)).localDiff,
        0 ≤ p.1 ∧ p.1 < (total : Int) + 2 := by
  intro rest
  induction rest with
  | nil =>
    intro j st m total h1 h2 h3
    simpa [List.enumFrom] using h3
  | cons l rest ih =>
    intro j st m total h1 h2 h3
    rw [List.enumFrom, List.foldl_cons]
    by_cases hq : l.head? = some QUESTION
    · have hstep : alignStep st (j, l)
          = { st with squigly := alSetO st.squigly st.lastAdded l,
                      compensator := st.compensator - 1 } := by
        simp [alignStep, hq]
      rw [hstep]
      have hcnt : countND (l :: rest) = countND rest := by
        simp [countND, List.countP_cons, hq]
      exact ih (j + 1) _ m total (by simp; omega) (by omega) (by simpa using h3)
    · by_cases hp : l.head? = some PLUS
      · have hstep : alignStep st (j, l)
            = { st with localDiff := st.localDiff ++ [((j : Int) + st.compensator, l)],
                        lastAdded := some l } := by
          simp [alignStep, hq, hp, show PLUS ≠ QUESTION by decide]
        rw [hstep]
        have hcnt : countND (l :: rest) = countND rest + 1 := by
          have hm : l.head? ≠ some MINUS := by rw [hp]; decide
          simp [countND, List.countP_cons, hq, hm]
        refine ih (j + 1) _ (m + 1) total (by simp; omega) (by omega) ?_
        intro p hpmem
        have hpm : p ∈ st.localDiff ∨ p = ((j : Int) + st.compensator, l) := by
          simpa using hpmem
        rcases hpm with hold | hnew
        · exact h3 p hold
        · subst hnew
          constructor <;> simp <;> omega
      · by_cases hm : l.head? = some MINUS
        · have hstep : alignStep st (j, l)
              = { st with localDiff := st.localDiff ++ [((j : Int) + st.compensator, l)],
                          lastAdded := some l,
                          compensator := st.compensator - 1 } := by
            simp [alignStep, hq, hp, hm, show MINUS ≠ QUESTION by decide,
                  show MINUS ≠ PLUS by decide]
          rw [hstep]
          have hcnt : countND (l :: rest) = countND rest := by
            simp [countND, List.countP_cons, hm]
          refine ih (j + 1) _ m total (by simp; omega) (by omega) ?_
          intro p hpmem
          have hpm : p ∈ st.localDiff ∨ p = ((j : Int) + st.compensator, l) := by
            simpa using hpmem
          rcases hpm with hold | hnew
          · exact h3 p hold
          · subst hnew
            constructor <;> simp <;> omega
        · have hstep : alignStep st (j, l) = st := by
            simp [alignStep, hq, hp, hm]
          rw [hstep]
          have hcnt : countND (l :: rest) = countND rest + 1 := by
            simp [countND, List.countP_cons, hq, hm]
          exact ih (j + 1) _ (m + 1) total (by omega) (by omega) h3

/-- Claim C1 counterexample: the difflib stream for base [a] versus
candidate [a, b] (one common line, one removal) records the removal at base
line number 2, outside [0, 1). -/
theorem c1_counterexample : ¬ claimC1Statement := by
  intro h
  have := h [[SPACE, SPACE, 'a'], [MINUS, SPACE, 'b']] 1 (by decide)
      ((2 : Int), [MINUS, SPACE, 'b']) (by decide)
  exact absurd this.2 (by decide)

/-- Claim C1 amended: for every difflib-style stream whose common and added
lines number exactly the base lines, every recorded base line number lies in
[0, len(base lines) + 2), that is, between 0 and len(base lines) + 1. -/
theorem c1_amended (diff : List (List Char)) (baseLen : Nat)
    (h : countND diff = baseLen) :
    ∀ p ∈ (alignCandidate diff).localDiff, 0 ≤ p.1 ∧ p.1 < (baseLen : Int) + 2 := by
  have := alignStep_fold_bound diff 0 ⟨1, [], none, []⟩ 0 baseLen
      (by simp) (by omega) (by simp)
  simpa [alignCandidate, List.enum] using this

/-- Witness for c1_amended at the counterexample stream: the record at line
number 2 is within the amended bound for the 1-line base. -/
theorem c1_amended_witness :
    countND [[SPACE, SPACE, 'a'], [MINUS, SPACE, 'b']] = 1
    ∧ (0 ≤ (2 : Int) ∧ (2 : Int) < (1 : Int) + 2) :=
  ⟨by decide,
   c1_amended [[SPACE, SPACE, 'a'], [MINUS, SPACE, 'b']] 1 (by decide)
     ((2 : Int), [MINUS, SPACE, 'b']) (by decide)⟩

theorem renderOne_ok (colored : Bool) (nf : Nat) (acc : GroupAcc) (n : Nat)
    (hn : n ≠ 0) (dl : List Char) :
    ∃ v, renderOne colored nf acc n dl = .ok v := by
  simp only [renderOne]
  by_cases h1 : colored = false ∧ (alGet acc.squigly dl).getD [] ≠ []
  · rw [if_pos h1, if_neg hn]
    exact ⟨_, rfl⟩
  · rw [if_neg h1]
    exact ⟨_, rfl⟩

theorem renderAll_ok (colored : Bool) (nf : Nat) (acc : GroupAcc) (n : Nat)
    (hn : n ≠ 0) :
    ∀ ls, ∃ v, renderAll colored nf acc n ls = .ok v := by
  intro ls
  induction ls with
  | nil => exact ⟨[], rfl⟩
  | cons dl rest ih =>
    obtain ⟨v1, hv1⟩ := renderOne_ok colored nf acc n hn dl
    obtain ⟨v2, hv2⟩ := ih
    exact ⟨v1 ++ v2, by simp only [renderAll, hv1, hv2]⟩

/-- Claim C2 counterexample: get_line at base line number 0, with color
output disabled and a merged emphasis mask present, raises (ValueError from
math.log10(0)) instead of succeeding; hence rendering can fail on input the
claim calls valid. -/
theorem c2_counterexample : ¬ claimC2Statement := by
  intro h
  obtain ⟨out, hout⟩ := h dMask0 1 false 0
  rw [show get_line dMask0 1 false 0 = Except.error () from rfl] at hout
  exact Except.noConfusion hout

/-- Claim C2 amended: get_line succeeds for every base line number of at
least 1, for every Change Index, candidate count and colored flag; the only
failing configuration is base line number 0 with color disabled and a mask
present. -/
theorem c2_amended (d : DiffInfo) (numFiles : Nat) (colored : Bool) (n : Nat)
    (h : 1 ≤ n) :
    ∃ out, get_line d numFiles colored n = .ok out := by
  have hn : n ≠ 0 := by omega
  obtain ⟨om, hom⟩ := renderAll_ok colored numFiles (groupAccOf (d n).minus) n hn
      (displayedTexts (d n).minus)
  obtain ⟨op, hop⟩ := renderAll_ok colored numFiles (groupAccOf (d n).plus) n hn
      (displayedTexts (d n).plus)
  exact ⟨if hasRecordsB d n && !hasRecordsB d (n + 1) then (om ++ op) ++ sepLines
         else om ++ op,
    by simp only [get_line, processKey, hom, hop]⟩

/-- Witness for c2_amended: the index of the c2 counterexample renders fine
at base line number 1. -/
theorem c2_amended_witness : (get_line dMask0 1 false 1).isOk = true := by
  obtain ⟨out, hout⟩ := c2_amended dMask0 1 false 1 (by decide)
  rw [hout]
  rfl

theorem two_le_joinWith (a b c : List Char) (r : List (List Char)) :
    2 ≤ (joinWith [SPACE] (a :: b :: c :: r)).length := by
  simp only [joinWith, List.length_append]
  simp
  omega

theorem two_le_infoLine (colored : Bool) (nf : Nat) (acc : GroupAcc) (n : Nat)
    (dl : List Char) : 2 ≤ (infoLine colored nf acc n dl).length := by
  simp only [infoLine]
  split_ifs
  · simpa using two_le_joinWith (natStr n) _ _ _
  · exact two_le_joinWith _ _ _ []

theorem renderOne_lines (colored : Bool) (nf : Nat) (acc : GroupAcc) (n : Nat)
    (dl : List Char) (v : List (List Char))
    (h : renderOne colored nf acc n dl = .ok v) :
    ∀ x ∈ v, 2 ≤ x.length := by
  simp only [renderOne] at h
  by_cases h1 : colored = false ∧ (alGet acc.squigly dl).getD [] ≠ []
  · rw [if_pos h1] at h
    by_cases h0 : n = 0
    · rw [if_pos h0] at h
      exact absurd h (by simp)
    · rw [if_neg h0, Except.ok.injEq] at h
      subst h
      intro x hx
      rcases List.mem_cons.mp hx with rfl | hx
      · exact two_le_infoLine colored nf acc n dl
      · rw [List.mem_singleton] at hx
        subst hx
        simp only [List.length_append, List.length_replicate]
        omega
  · rw [if_neg h1, Except.ok.injEq] at h
    subst h
    intro x hx
    rw [List.mem_singleton] at hx
    subst hx
    exact two_le_infoLine colored nf acc n dl

theorem renderAll_lines (colored : Bool) (nf : Nat) (acc : GroupAcc) (n : Nat) :
    ∀ (ls : List (List Char)) (v : List (List Char)),
      renderAll colored nf acc n ls = .ok v → ∀ x ∈ v, 2 ≤ x.length := by
  intro ls
  induction ls with
  | nil =>
    intro v h
    rw [renderAll, Except.ok.injEq] at h
    subst h
    simp
  | cons dl rest ih =>
    intro v h
    simp only [renderAll] at h
    cases hro : renderOne colored nf acc n dl with
    | error e =>
      simp only [hro] at h
      exact Except.noConfusion h
    | ok ls1 =>
      simp only [hro] at h
      cases hra : renderAll colored nf acc n rest with
      | error e =>
        simp only [hra] at h
        exact Except.noConfusion h
      | ok ls2 =>
        simp only [hra, Except.ok.injEq] at h
        subst h
        intro x hx
        rcases List.mem_append.mp hx with h1 | h2
        · exact renderOne_lines colored nf acc n dl ls1 hro x h1
        · exact ih ls2 hra x h2

theorem processKey_lines (colored : Bool) (nf : Nat) (n : Nat)
    (records : List Record) (v : List (List Char))
    (h : processKey colored nf n records = .ok v) :
    ∀ x ∈ v, 2 ≤ x.length :=
  renderAll_lines colored nf (groupAccOf records) n (displayedTexts records) v h

theorem sep_suffix_getLast? (out : List (List Char)) (h : sepLines <:+ out) :
    out.getLast? = some [SPACE] := by
  obtain ⟨t, ht⟩ := h
  subst ht
  rw [List.getLast?_append]
  rfl

/-- Claim C9 amended: in the output of get_line, the separator is a suffix
exactly when the line number bears records and the next line number bears
none (the next line number may lie past the rendered range, in which case
the separator is suppressed even at the end of the report); a line number
without records emits nothing. -/
theorem c9_amended (d : DiffInfo) (numFiles : Nat) (colored : Bool) (i : Nat)
    (out : List (List Char)) (h : get_line d numFiles colored i = .ok out) :
    ((sepLines <:+ out) ↔ (hasRecordsB d i = true ∧ hasRecordsB d (i + 1) = false))
    ∧ (hasRecordsB d i = false → out = []) := by
  simp only [get_line] at h
  cases hm : processKey colored numFiles i (d i).minus with
  | error e =>
    simp only [hm] at h
    exact Except.noConfusion h
  | ok om =>
    simp only [hm] at h
    cases hp : processKey colored numFiles i (d i).plus with
    | error e =>
      simp only [hp] at h
      exact Except.noConfusion h
    | ok op =>
      simp only [hp, Except.ok.injEq] at h
      cases hcond : (hasRecordsB d i && !hasRecordsB d (i + 1)) with
      | true =>
        rw [hcond, if_pos rfl] at h
        subst h
        rw [Bool.and_eq_true] at hcond
        constructor
        · constructor
          · intro _
            exact ⟨hcond.1, by simpa using hcond.2⟩
          · intro _
            exact ⟨om ++ op, rfl⟩
        · intro hfalse
          rw [hfalse] at hcond
          exact absurd hcond.1 (by decide)
      | false =>
        rw [hcond, if_neg (by decide)] at h
        subst h
        have hnotsuf : ¬ sepLines <:+ (om ++ op) := by
          intro hsuf
          have hmem := List.mem_of_getLast?_eq_some (sep_suffix_getLast? _ hsuf)
          rcases List.mem_append.mp hmem with hh | hh
          · have := processKey_lines colored numFiles i (d i).minus om hm _ hh
            simp at this
          · have := processKey_lines colored numFiles i (d i).plus op hp _ hh
            simp at this
        constructor
        · constructor
          · intro hsuf
            exact absurd hsuf hnotsuf
          · intro hca
            exfalso
            rw [hca.1, hca.2] at hcond
            simp at hcond
        · intro hfalse
          have hmp : (d i).minus = [] ∧ (d i).plus = [] := by
            simpa [hasRecordsB] using hfalse
          have h1 : processKey colored numFiles i (d i).minus = .ok [] := by
            rw [hmp.1]; rfl
          have h2 : processKey colored numFiles i (d i).plus = .ok [] := by
            rw [hmp.2]; rfl
          rw [h1, Except.ok.injEq] at hm
          rw [h2, Except.ok.injEq] at hp
          rw [← hm, ← hp]
          rfl

/-- Claim C9 counterexample: with records at base line numbers 1 and 2 of a
2-line base (reachable: base [a, b] against candidate [x, y] records at 1
and 2), line number 1 is the last rendered line of its run, yet its output
carries no separator, because line number 2 (outside the rendered range)
still bears records. -/
theorem c9_counterexample : ¬ claimC9Statement := by
  intro h
  have H := (h dRun2 2 1 false).1 1
      [['1', SPACE, MINUS, 'x', SPACE, '(', '1', '/', '1', ')']]
      (by decide) (by decide) (Or.inl rfl) rfl
  obtain ⟨t, ht⟩ := H
  have hlen := congrArg List.length ht
  simp [sepLines] at hlen

/-- Witness for c9_amended: with records only at base line number 3, the
rendered output of line 3 ends with the separator. -/
theorem c9_amended_witness :
    sepLines <:+ [['3', SPACE, MINUS, 'x', SPACE, '(', '1', '/', '1', ')'],
      [SPACE], List.replicate SEP_WIDTH MINUS, [SPACE]] :=
  ((c9_amended dSep3 1 false 3
      [['3', SPACE, MINUS, 'x', SPACE, '(', '1', '/', '1', ')'],
        [SPACE], List.replicate SEP_WIDTH MINUS, [SPACE]] rfl).1).mpr
    ⟨rfl, rfl⟩

end Multidiff
